import Mathlib

/-!
Shallow embedding of the cubby in-memory cache (package `cubby`, file
`cubby.go`) and proofs of the specification claims about it.

Modelling choices:
* `time.Time` is modelled as `Int` (nanoseconds on an absolute axis); the Go
  zero `time.Time` is the integer `0`, so `t.IsZero()` becomes `t = 0` and
  `a.After b` becomes `b < a`.  `time.Duration` is likewise an `Int` and
  `now.Add(lifetime)` is `now + lifetime`.
* the Go map `map[K]Item[V]` is an association list `List (K × Item V)`;
  Go maps never hold two entries for one key, which is the `NodupKeys`
  invariant.  Map assignment (`c.items[key] = item`) is `SetItem`, which
  replaces in place or appends; `delete(c.items, key)` filters the key out;
  the comma-ok read `item, ok := c.items[key]` is `GetItem`, producing the
  zero `Item` and `false` when the key is absent.
* functions that read the ambient clock (`time.Now().UTC()`) take the
  current instant `now : Int` as an explicit argument.
* mutexes guard the map but add no sequential behaviour; they are dropped.
-/

namespace Cubby

/-- `Item` from cubby.go: a unit mapped to a key in a `Cache`, a value with
its creation time and (possibly zero) expiration time. -/
structure Item (V : Type) where
  Value : V
  CreatedAt : Int
  ExpiredAt : Int
deriving Repr, DecidableEq

/-- `Item.IsExpired`: `!i.ExpiredAt.IsZero() && time.Now().UTC().After(i.ExpiredAt)`.
The current instant is the explicit argument `now`. -/
def Item.IsExpired (i : Item V) (now : Int) : Bool :=
  !(i.ExpiredAt = 0 : Bool) && (i.ExpiredAt < now : Bool)

/-- The contents of a `Cache`: the Go map `map[K]Item[V]` as an association
list. -/
abbrev Cache (K V : Type) := List (K × Item V)

/-- Go maps bind each key at most once. -/
def NodupKeys (c : Cache K V) : Prop :=
  (c.map Prod.fst).Nodup

/-- `Cache.SetItem`: the map assignment `c.items[key] = item` — replace the
binding for `key` if present, otherwise add one. -/
def SetItem [DecidableEq K] : Cache K V → K → Item V → Cache K V
  | [], k, it => [(k, it)]
  | kv :: rest, k, it =>
      if kv.1 = k then (k, it) :: rest else kv :: SetItem rest k it

/-- `Cache.Set`: stores `Item{Value: value, CreatedAt: time.Now().UTC()}`;
the `ExpiredAt` field is left at the zero time. -/
def Set [DecidableEq K] (c : Cache K V) (k : K) (v : V) (now : Int) : Cache K V :=
  SetItem c k { Value := v, CreatedAt := now, ExpiredAt := 0 }

/-- `Cache.SetToExpire`: stores
`Item{Value: value, CreatedAt: now, ExpiredAt: now.Add(lifetime)}`. -/
def SetToExpire [DecidableEq K] (c : Cache K V) (k : K) (v : V)
    (lifetime : Int) (now : Int) : Cache K V :=
  SetItem c k { Value := v, CreatedAt := now, ExpiredAt := now + lifetime }

/-- Presence lookup behind the comma-ok map read: the binding of `k` in the
map, if any. -/
def GetItem? [DecidableEq K] : Cache K V → K → Option (Item V)
  | [], _ => none
  | kv :: rest, k => if kv.1 = k then some kv.2 else GetItem? rest k

/-- The zero value of `Item[V]`: zero value of `V`, zero times. -/
def zeroItem [Inhabited V] : Item V :=
  { Value := default, CreatedAt := 0, ExpiredAt := 0 }

/-- `Cache.GetItem`: `item, ok := c.items[key]; return item, ok` — the Go
comma-ok read yields the zero `Item` and `false` when `key` is absent. -/
def GetItem [DecidableEq K] [Inhabited V] (c : Cache K V) (k : K) :
    Item V × Bool :=
  match GetItem? c k with
  | some it => (it, true)
  | none => (zeroItem, false)

/-- `Cache.Get`: `item, ok := c.GetItem(key); return item.Value, ok`. -/
def Get [DecidableEq K] [Inhabited V] (c : Cache K V) (k : K) : V × Bool :=
  ((GetItem c k).1.Value, (GetItem c k).2)

/-- `Cache.Delete`: `delete(c.items, key)`. -/
def Delete [DecidableEq K] (c : Cache K V) (k : K) : Cache K V :=
  c.filter (fun kv => decide (kv.1 ≠ k))

/-- `Cache.Clear`: `c.items = make(map[K]Item[V])`. -/
def Clear (K V : Type) : Cache K V := []

/-- `Cache.ClearExpired`: delete every binding whose item `IsExpired()` at
the instant `now` of the scan. -/
def ClearExpired (c : Cache K V) (now : Int) : Cache K V :=
  c.filter (fun kv => !(kv.2.IsExpired now))

/-- `Cache.Len`: `len(c.items)`. -/
def Len (c : Cache K V) : Nat := c.length

/-!
A minimal heap of Go map values, to express the aliasing content of
`Cache.Items`: the loop `items := make(map...); for k, v := range c.items
\x7b items[k] = v \x7d; return items` allocates a fresh map and copies every
binding into it, so the reference it returns is distinct from `c.items`.
References are indices into the heap's list of map values.
-/

/-- A heap of Go map values; a reference is an index into `maps`. -/
structure Heap (K V : Type) where
  maps : List (Cache K V)

/-- Dereference: the map value a reference points at. -/
def Heap.read (h : Heap K V) (r : Nat) : Cache K V :=
  h.maps.getD r []

/-- Store a new map value at an existing reference (a mutation of that map). -/
def Heap.write (h : Heap K V) (r : Nat) (m : Cache K V) : Heap K V :=
  ⟨h.maps.set r m⟩

/-- `make(map[K]Item[V], n)` followed by returning the new map: allocate a
fresh reference holding `m`. -/
def Heap.alloc (h : Heap K V) (m : Cache K V) : Nat × Heap K V :=
  (h.maps.length, ⟨h.maps ++ [m]⟩)

/-- The body of the copy loop in `Cache.Items`: insert each binding of the
source, in order, into the map being built. -/
def copyLoop [DecidableEq K] (src : Cache K V) (acc : Cache K V) : Cache K V :=
  src.foldl (fun acc kv => SetItem acc kv.1 kv.2) acc

/-- `Cache.Items`: allocate a fresh empty map, copy every binding of the
store's map into it, and return the fresh reference.  The store's own map
lives at reference `r` and is only read. -/
def ItemsH [DecidableEq K] (h : Heap K V) (r : Nat) : Nat × Heap K V :=
  h.alloc (copyLoop (h.read r) [])

/-!
The ticker of a `TickingCache`.  `time.Ticker` is modelled by its running
flag; a tick can be delivered only while the flag is set.  The `Job` slot
and the embedded `Cache` take no part in `Stop`, but are carried so the
structure mirrors the Go one (`Job` is `none` when the Go field is `nil`,
and `some j` with `j` an abstract job identifier otherwise).
-/

/-- The state of a `time.Ticker`: whether it is still ticking. -/
structure Ticker where
  running : Bool
deriving Repr, DecidableEq

/-- `time.Ticker.Stop`: turns off ticking; safe to call repeatedly. -/
def Ticker.stopTicker (_t : Ticker) : Ticker :=
  { running := false }

/-- `TickingCache` from cubby.go: an embedded `Cache`, a ticker pointer
(`none` models the nil pointer of a never-started ticker), and the `Job`
slot. -/
structure TickingCache (K V J : Type) where
  cache : Cache K V
  ticker : Option Ticker
  Job : Option J

/-- `TickingCache.Stop`: `if tc.ticker != nil \x7b tc.ticker.Stop() \x7d` —
the nil check makes the call total, and a nil ticker is left untouched. -/
def TickingCache.Stop (tc : TickingCache K V J) : TickingCache K V J :=
  match tc.ticker with
  | none => tc
  | some t => { tc with ticker := some t.stopTicker }

/-- A tick is delivered (and `Job` may run) only when a ticker exists and is
running: `Start` loops on `range tc.ticker.C`, which yields nothing once the
ticker is stopped. -/
def TickingCache.tickEnabled (tc : TickingCache K V J) : Bool :=
  match tc.ticker with
  | none => false
  | some t => t.running

/-! ## Helper lemmas -/

theorem GetItem?_SetItem_self [DecidableEq K] (c : Cache K V) (k : K)
    (it : Item V) : GetItem? (SetItem c k it) k = some it := by
  induction c with
  | nil => simp [SetItem, GetItem?]
  | cons kv rest ih =>
      by_cases h : kv.1 = k
      · simp [SetItem, GetItem?, h]
      · simp [SetItem, GetItem?, h, ih]

theorem GetItem?_eq_none_of_not_mem [DecidableEq K] (c : Cache K V) (k : K)
    (h : k ∉ c.map Prod.fst) : GetItem? c k = none := by
  induction c with
  | nil => rfl
  | cons kv rest ih =>
      simp only [List.map_cons, List.mem_cons] at h
      push_neg at h
      simp [GetItem?, if_neg (Ne.symm h.1), ih h.2]

theorem mem_keys_of_GetItem?_isSome [DecidableEq K] (c : Cache K V) (k : K)
    (h : (GetItem? c k).isSome) : k ∈ c.map Prod.fst := by
  induction c with
  | nil => simp [GetItem?] at h
  | cons kv rest ih =>
      by_cases hk : kv.1 = k
      · simp [List.map_cons, hk]
      · simp only [GetItem?, if_neg hk] at h
        simp [List.map_cons, ih h]

/-- Characterization of the sweep's effect on lookups, for a map with
Go-map-like distinct keys: a key maps afterward to exactly what it mapped to
before, filtered by non-expiry. -/
theorem GetItem?_ClearExpired [DecidableEq K] (c : Cache K V) (now : Int)
    (hnd : NodupKeys c) (k : K) :
    GetItem? (ClearExpired c now) k =
      (GetItem? c k).bind (fun it => if it.IsExpired now then none else some it) := by
  induction c with
  | nil => rfl
  | cons kv rest ih =>
      simp only [NodupKeys, List.map_cons, List.nodup_cons] at hnd
      have ih' := ih hnd.2
      simp only [ClearExpired, List.filter_cons] at ih' ⊢
      by_cases hexp : kv.2.IsExpired now
      · by_cases hk : kv.1 = k
        · have hnone : GetItem? (rest.filter (fun kv => !(kv.2.IsExpired now))) k = none := by
            apply GetItem?_eq_none_of_not_mem
            intro hmem
            apply hnd.1
            rw [hk]
            rcases List.mem_map.mp hmem with ⟨kv', hkv', rfl⟩
            exact List.mem_map_of_mem _ (List.mem_of_mem_filter hkv')
          simp [GetItem?, hk, hexp, hnone]
        · simp [GetItem?, hk, hexp, ih']
      · by_cases hk : kv.1 = k
        · simp [GetItem?, hk, hexp]
        · simp [GetItem?, hk, hexp, ih']

theorem length_ClearExpired (c : Cache K V) (now : Int) :
    (ClearExpired c now).length = c.countP (fun kv => !(kv.2.IsExpired now)) := by
  simp [ClearExpired, List.countP_eq_length_filter]

theorem GetItem?_Delete_self [DecidableEq K] (c : Cache K V) (k : K) :
    GetItem? (Delete c k) k = none := by
  apply GetItem?_eq_none_of_not_mem
  intro hmem
  rcases List.mem_map.mp hmem with ⟨kv, hkv, hfst⟩
  have := List.of_mem_filter hkv
  simp only [decide_eq_true_eq] at this
  exact this hfst

theorem Delete_eq_of_absent [DecidableEq K] (c : Cache K V) (k : K)
    (h : GetItem? c k = none) : Delete c k = c := by
  induction c with
  | nil => rfl
  | cons kv rest ih =>
      by_cases hk : kv.1 = k
      · simp [GetItem?, hk] at h
      · simp only [GetItem?, if_neg hk] at h
        have hrest := ih h
        simp only [Delete, List.filter_cons] at hrest ⊢
        rw [if_pos (by simp [hk]), hrest]

theorem SetItem_eq_append_of_absent [DecidableEq K] (acc : Cache K V) (k : K)
    (it : Item V) (h : k ∉ acc.map Prod.fst) :
    SetItem acc k it = acc ++ [(k, it)] := by
  induction acc with
  | nil => rfl
  | cons kv rest ih =>
      simp only [List.map_cons, List.mem_cons] at h
      push_neg at h
      simp [SetItem, if_neg (Ne.symm h.1), ih h.2]

theorem copyLoop_eq_append [DecidableEq K] (src : Cache K V) :
    ∀ acc : Cache K V, NodupKeys src →
      (∀ a ∈ src.map Prod.fst, a ∉ acc.map Prod.fst) →
      copyLoop src acc = acc ++ src := by
  induction src with
  | nil => intro acc _ _; simp [copyLoop]
  | cons kv rest ih =>
      intro acc hnd hdisj
      simp only [NodupKeys, List.map_cons, List.nodup_cons] at hnd
      have hk : kv.1 ∉ acc.map Prod.fst := hdisj kv.1 (by simp)
      have hstep : SetItem acc kv.1 kv.2 = acc ++ [(kv.1, kv.2)] :=
        SetItem_eq_append_of_absent acc kv.1 kv.2 hk
      have hdisj' : ∀ a ∈ rest.map Prod.fst,
          a ∉ (acc ++ [(kv.1, kv.2)]).map Prod.fst := by
        intro a ha
        simp only [List.map_append, List.mem_append, List.map_cons,
          List.map_nil, List.mem_singleton]
        push_neg
        refine ⟨hdisj a (by simp [ha]), ?_⟩
        intro heq
        exact hnd.1 (heq ▸ ha)
      have := ih (acc ++ [(kv.1, kv.2)]) hnd.2 hdisj'
      simp only [copyLoop, List.foldl_cons] at this ⊢
      rw [hstep, this, List.append_assoc]
      rfl

/-- The copy loop of `Items`, started on a fresh empty map, reproduces the
source map exactly. -/
theorem copyLoop_eq_self [DecidableEq K] (src : Cache K V)
    (hnd : NodupKeys src) : copyLoop src [] = src := by
  simpa using copyLoop_eq_append src [] hnd (by simp)

theorem Heap.read_alloc (h : Heap K V) (m : Cache K V) :
    ((h.alloc m).2).read (h.alloc m).1 = m := by
  simp [Heap.alloc, Heap.read]

theorem Heap.read_alloc_old (h : Heap K V) (m : Cache K V) (r : Nat)
    (hr : r < h.maps.length) : ((h.alloc m).2).read r = h.read r := by
  simp [Heap.alloc, Heap.read, List.getElem?_append_left hr]

theorem Heap.read_write_ne (h : Heap K V) (r rw : Nat) (hne : r ≠ rw)
    (m : Cache K V) : (h.write rw m).read r = h.read r := by
  simp [Heap.write, Heap.read, List.getElem?_set_ne (Ne.symm hne)]

/-! ## Claim theorems -/

/-- C1: for every cache state (with Go-map-distinct keys) and every instant,
`ClearExpired` removes exactly the expired entries: a key is absent
afterward iff it was absent before or its entry was expired at scan time;
every non-expired entry is returned unchanged (the very same item, so also
its `CreatedAt`); and the entry count afterward equals the count of
non-expired entries beforehand. -/
theorem C1_ClearExpired_exact [DecidableEq K] (c : Cache K V) (now : Int)
    (hnd : NodupKeys c) :
    (∀ k : K, GetItem? (ClearExpired c now) k = none ↔
        (GetItem? c k = none ∨
          ∃ it, GetItem? c k = some it ∧ it.IsExpired now = true)) ∧
    (∀ (k : K) (it : Item V), GetItem? c k = some it →
        it.IsExpired now = false → GetItem? (ClearExpired c now) k = some it) ∧
    Len (ClearExpired c now) = c.countP (fun kv => !(kv.2.IsExpired now)) := by
  refine ⟨?_, ?_, ?_⟩
  · intro k
    rw [GetItem?_ClearExpired c now hnd k]
    cases hgi : GetItem? c k with
    | none => simp
    | some it =>
        by_cases hexp : it.IsExpired now
        · simp [hexp]
        · simp [hexp]
  · intro k it hit hexp
    rw [GetItem?_ClearExpired c now hnd k, hit]
    simp [hexp]
  · exact length_ClearExpired c now

theorem C1_witness :
    GetItem? (ClearExpired ([(1, ⟨10, 0, 5⟩), (2, ⟨20, 0, 0⟩)] : Cache Nat Nat) 7) 1 = none ∧
    GetItem? (ClearExpired ([(1, ⟨10, 0, 5⟩), (2, ⟨20, 0, 0⟩)] : Cache Nat Nat) 7) 2 =
      some ⟨20, 0, 0⟩ ∧
    Len (ClearExpired ([(1, ⟨10, 0, 5⟩), (2, ⟨20, 0, 0⟩)] : Cache Nat Nat) 7) = 1 := by
  have h := C1_ClearExpired_exact
    ([(1, ⟨10, 0, 5⟩), (2, ⟨20, 0, 0⟩)] : Cache Nat Nat) 7 (by unfold NodupKeys; decide)
  refine ⟨?_, ?_, ?_⟩
  · exact (h.1 1).mpr (Or.inr ⟨⟨10, 0, 5⟩, rfl, by decide⟩)
  · exact h.2.1 2 ⟨20, 0, 0⟩ rfl (by decide)
  · rw [h.2.2]; decide

/-- C2: for every key present in the cache, `GetItem` (and `Get`) returns
the stored entry with `found = true`, with no condition on expiry — in
particular even at an instant where the entry's `IsExpired` is true; reads
never evict or filter expired entries. -/
theorem C2_Get_lazy_expiry [DecidableEq K] [Inhabited V] (c : Cache K V)
    (k : K) (it : Item V) (now : Int) (h : GetItem? c k = some it) :
    GetItem c k = (it, true) ∧ Get c k = (it.Value, true) ∧
    (it.IsExpired now = true → GetItem c k = (it, true)) := by
  simp [GetItem, Get, h]

theorem C2_witness :
    Item.IsExpired (⟨5, 0, 3⟩ : Item Nat) 10 = true ∧
    GetItem ([(1, ⟨5, 0, 3⟩)] : Cache Nat Nat) 1 = (⟨5, 0, 3⟩, true) ∧
    Get ([(1, ⟨5, 0, 3⟩)] : Cache Nat Nat) 1 = (5, true) :=
  ⟨by decide,
   (C2_Get_lazy_expiry ([(1, ⟨5, 0, 3⟩)] : Cache Nat Nat) 1 ⟨5, 0, 3⟩ 10 rfl).1,
   (C2_Get_lazy_expiry ([(1, ⟨5, 0, 3⟩)] : Cache Nat Nat) 1 ⟨5, 0, 3⟩ 10 rfl).2.1⟩

/-- C3: `IsExpired` returns false when no expiration was set (zero
`ExpiredAt`), and otherwise returns true iff the current instant is strictly
after the expiration; at an instant exactly equal to the expiration it
returns false. -/
theorem C3_IsExpired_spec (it : Item V) (now : Int) :
    (it.ExpiredAt = 0 → it.IsExpired now = false) ∧
    (it.ExpiredAt ≠ 0 → (it.IsExpired now = true ↔ it.ExpiredAt < now)) ∧
    (now = it.ExpiredAt → it.IsExpired now = false) := by
  refine ⟨?_, ?_, ?_⟩ <;> intro h <;> simp [Item.IsExpired, h]

theorem C3_witness :
    Item.IsExpired (⟨0, 0, 0⟩ : Item Nat) 99 = false ∧
    Item.IsExpired (⟨0, 3, 5⟩ : Item Nat) 5 = false ∧
    Item.IsExpired (⟨0, 3, 5⟩ : Item Nat) 6 = true :=
  ⟨(C3_IsExpired_spec (⟨0, 0, 0⟩ : Item Nat) 99).1 rfl,
   (C3_IsExpired_spec (⟨0, 3, 5⟩ : Item Nat) 5).2.2 rfl,
   ((C3_IsExpired_spec (⟨0, 3, 5⟩ : Item Nat) 6).2.1 (by decide)).mpr (by decide)⟩

/-- C4: after `Set c k v` at instant `now`, `Get` returns `(v, true)`; the
stored entry has `CreatedAt = now` and zero `ExpiredAt`, and it never
expires — for any prior cache state and any previous binding of `k`. -/
theorem C4_Set_spec [DecidableEq K] [Inhabited V] (c : Cache K V) (k : K)
    (v : V) (now : Int) :
    Get (Set c k v now) k = (v, true) ∧
    GetItem? (Set c k v now) k =
      some { Value := v, CreatedAt := now, ExpiredAt := 0 } ∧
    (∀ t : Int,
      Item.IsExpired { Value := v, CreatedAt := now, ExpiredAt := 0 } t = false) := by
  have h := GetItem?_SetItem_self c k { Value := v, CreatedAt := now, ExpiredAt := 0 }
  refine ⟨?_, ?_, ?_⟩
  · simp [Get, GetItem, Set, h]
  · simpa [Set] using h
  · intro t; simp [Item.IsExpired]

/-- C5 counterexample: with lifetime exactly 0 (at `now = 100`), the stored
entry has `ExpiredAt = CreatedAt = 100`, and `IsExpired` at the instant of
creation is false — `After` is strict, so the claim "expired at birth" fails
for zero lifetime. -/
theorem C5_counterexample :
    GetItem? (SetToExpire ([] : Cache Nat Nat) 1 9 0 100) 1 =
      some { Value := 9, CreatedAt := 100, ExpiredAt := 100 } ∧
    Item.IsExpired { Value := (9 : Nat), CreatedAt := 100, ExpiredAt := 100 } 100 = false := by
  refine ⟨?_, by decide⟩
  decide

/-- C5 (amended): for every lifetime ≤ 0, `SetToExpire` succeeds without
validation and stores the entry with expiration `now + lifetime`; provided
that computed expiration is not the zero timestamp, the entry is expired at
every instant strictly after creation, and when the lifetime is strictly
negative it is expired already at the instant of creation; at lifetime
exactly 0 it is not yet expired at the creation instant itself (expiry is
strict). -/
theorem C5_SetToExpire_nonpos [DecidableEq K] (c : Cache K V) (k : K) (v : V)
    (lifetime now : Int) (hL : lifetime ≤ 0) (hz : now + lifetime ≠ 0) :
    GetItem? (SetToExpire c k v lifetime now) k =
      some { Value := v, CreatedAt := now, ExpiredAt := now + lifetime } ∧
    (lifetime < 0 →
      Item.IsExpired { Value := v, CreatedAt := now, ExpiredAt := now + lifetime } now = true) ∧
    (∀ t : Int, now < t →
      Item.IsExpired { Value := v, CreatedAt := now, ExpiredAt := now + lifetime } t = true) := by
  refine ⟨?_, ?_, ?_⟩
  · simpa [SetToExpire] using
      GetItem?_SetItem_self c k { Value := v, CreatedAt := now, ExpiredAt := now + lifetime }
  · intro hneg
    simp only [Item.IsExpired, Bool.and_eq_true, Bool.not_eq_true', decide_eq_false_iff_not,
      decide_eq_true_eq]
    exact ⟨hz, by omega⟩
  · intro t ht
    simp only [Item.IsExpired, Bool.and_eq_true, Bool.not_eq_true', decide_eq_false_iff_not,
      decide_eq_true_eq]
    exact ⟨hz, by omega⟩

theorem C5_witness :
    GetItem? (SetToExpire ([] : Cache Nat Nat) 1 9 (-5) 100) 1 =
      some { Value := 9, CreatedAt := 100, ExpiredAt := 100 + (-5) } ∧
    Item.IsExpired { Value := (9 : Nat), CreatedAt := 100, ExpiredAt := 100 + (-5) } 100 = true :=
  ⟨(C5_SetToExpire_nonpos ([] : Cache Nat Nat) 1 9 (-5) 100 (by norm_num) (by norm_num)).1,
   (C5_SetToExpire_nonpos ([] : Cache Nat Nat) 1 9 (-5) 100 (by norm_num) (by norm_num)).2.1
     (by norm_num)⟩

/-- C6: `Items` builds a fresh map (at a reference distinct from the
store's), whose content equals the store's content at the instant of the
call; overwriting the returned map with any mutated value leaves the store's
map — and hence every subsequent lookup and `Len` on it — unchanged. -/
theorem C6_Items_copy [DecidableEq K] (h : Heap K V) (r : Nat)
    (hr : r < h.maps.length) (hnd : NodupKeys (h.read r)) :
    (ItemsH h r).2.read (ItemsH h r).1 = h.read r ∧
    (ItemsH h r).1 ≠ r ∧
    (∀ m : Cache K V,
      ((ItemsH h r).2.write (ItemsH h r).1 m).read r = h.read r ∧
      (∀ k : K, GetItem? (((ItemsH h r).2.write (ItemsH h r).1 m).read r) k =
        GetItem? (h.read r) k) ∧
      Len (((ItemsH h r).2.write (ItemsH h r).1 m).read r) = Len (h.read r)) := by
  have hcopy : copyLoop (h.read r) [] = h.read r := copyLoop_eq_self _ hnd
  have hfresh : (ItemsH h r).1 = h.maps.length := rfl
  have hne : (ItemsH h r).1 ≠ r := by
    rw [hfresh]; omega
  have hstore : ∀ m : Cache K V,
      ((ItemsH h r).2.write (ItemsH h r).1 m).read r = h.read r := by
    intro m
    rw [Heap.read_write_ne _ _ _ (Ne.symm hne) m]
    exact Heap.read_alloc_old h _ r hr
  refine ⟨?_, hne, ?_⟩
  · rw [show (ItemsH h r) = h.alloc (copyLoop (h.read r) []) from rfl,
      Heap.read_alloc, hcopy]
  · intro m
    exact ⟨hstore m, fun k => by rw [hstore m], by rw [hstore m]⟩

theorem C6_witness :
    (ItemsH (⟨[[(1, ⟨5, 0, 0⟩)]]⟩ : Heap Nat Nat) 0).2.read
      (ItemsH (⟨[[(1, ⟨5, 0, 0⟩)]]⟩ : Heap Nat Nat) 0).1 = [(1, ⟨5, 0, 0⟩)] ∧
    ((ItemsH (⟨[[(1, ⟨5, 0, 0⟩)]]⟩ : Heap Nat Nat) 0).2.write
      (ItemsH (⟨[[(1, ⟨5, 0, 0⟩)]]⟩ : Heap Nat Nat) 0).1 []).read 0 = [(1, ⟨5, 0, 0⟩)] := by
  have h := C6_Items_copy (⟨[[(1, ⟨5, 0, 0⟩)]]⟩ : Heap Nat Nat) 0
    (by decide) (by unfold NodupKeys; decide)
  exact ⟨h.1, (h.2.2 []).1⟩

/-- C7: `Delete` removes the binding for `k` (afterwards `Get` reports
not-found with the zero value), deleting an absent key is a no-op leaving
the cache equal, and `Delete` is idempotent. -/
theorem C7_Delete_spec [DecidableEq K] [Inhabited V] (c : Cache K V) (k : K) :
    GetItem? (Delete c k) k = none ∧
    Get (Delete c k) k = ((default : V), false) ∧
    Delete (Delete c k) k = Delete c k ∧
    (GetItem? c k = none → Delete c k = c) := by
  have h1 := GetItem?_Delete_self c k
  refine ⟨h1, ?_, ?_, Delete_eq_of_absent c k⟩
  · simp [Get, GetItem, h1, zeroItem]
  · exact Delete_eq_of_absent (Delete c k) k h1

theorem C7_witness :
    GetItem? (Delete ([(1, ⟨5, 0, 0⟩)] : Cache Nat Nat) 1) 1 = none ∧
    Delete (Delete ([(1, ⟨5, 0, 0⟩)] : Cache Nat Nat) 1) 1 =
      Delete ([(1, ⟨5, 0, 0⟩)] : Cache Nat Nat) 1 ∧
    Delete ([(1, ⟨5, 0, 0⟩)] : Cache Nat Nat) 2 = [(1, ⟨5, 0, 0⟩)] :=
  ⟨(C7_Delete_spec ([(1, ⟨5, 0, 0⟩)] : Cache Nat Nat) 1).1,
   (C7_Delete_spec ([(1, ⟨5, 0, 0⟩)] : Cache Nat Nat) 1).2.2.1,
   (C7_Delete_spec ([(1, ⟨5, 0, 0⟩)] : Cache Nat Nat) 2).2.2.2 rfl⟩

/-- C8: `Stop` on a `TickingCache` whose ticker was never started (nil) is
the identity — it silently succeeds with no observable effect, thanks to the
nil guard; `Stop` on an already-stopped ticker likewise changes nothing; and
after any `Stop` no tick can be delivered (`tickEnabled` is false), so the
`Job` can no longer be invoked. -/
theorem C8_Stop_spec (tc : TickingCache K V J) :
    (tc.ticker = none → tc.Stop = tc) ∧
    (tc.ticker = some { running := false } → tc.Stop = tc) ∧
    tc.Stop.tickEnabled = false := by
  refine ⟨?_, ?_, ?_⟩
  · intro h; simp [TickingCache.Stop, h]
  · intro h
    cases tc
    subst h
    simp [TickingCache.Stop, Ticker.stopTicker]
  · cases htick : tc.ticker with
    | none => simp [TickingCache.Stop, TickingCache.tickEnabled, htick]
    | some t => simp [TickingCache.Stop, TickingCache.tickEnabled, htick, Ticker.stopTicker]

theorem C8_witness :
    TickingCache.Stop (⟨[], none, none⟩ : TickingCache Nat Nat Unit) = ⟨[], none, none⟩ ∧
    TickingCache.Stop (⟨[], some ⟨false⟩, none⟩ : TickingCache Nat Nat Unit) =
      ⟨[], some ⟨false⟩, none⟩ ∧
    TickingCache.tickEnabled
      (TickingCache.Stop (⟨[], some ⟨true⟩, none⟩ : TickingCache Nat Nat Unit)) = false :=
  ⟨(C8_Stop_spec (⟨[], none, none⟩ : TickingCache Nat Nat Unit)).1 rfl,
   (C8_Stop_spec (⟨[], some ⟨false⟩, none⟩ : TickingCache Nat Nat Unit)).2.1 rfl,
   (C8_Stop_spec (⟨[], some ⟨true⟩, none⟩ : TickingCache Nat Nat Unit)).2.2⟩

/-- C9: an entry whose `ExpiredAt` is the zero timestamp — however it came
to be stored, including via `SetToExpire` when `now + lifetime` lands
exactly on zero — is never expired at any instant and is never removed by
`ClearExpired`, no matter its `CreatedAt`. -/
theorem C9_zero_ExpiredAt_never_expires [DecidableEq K] (it : Item V)
    (hz : it.ExpiredAt = 0) :
    (∀ now : Int, it.IsExpired now = false) ∧
    (∀ (c : Cache K V) (now : Int) (k : K), NodupKeys c →
      GetItem? c k = some it → GetItem? (ClearExpired c now) k = some it) ∧
    (∀ (c : Cache K V) (k : K) (v : V) (lifetime now : Int), now + lifetime = 0 →
      GetItem? (SetToExpire c k v lifetime now) k =
        some { Value := v, CreatedAt := now, ExpiredAt := 0 }) := by
  refine ⟨?_, ?_, ?_⟩
  · intro now; simp [Item.IsExpired, hz]
  · intro c now k hnd hk
    rw [GetItem?_ClearExpired c now hnd k, hk]
    simp [Item.IsExpired, hz]
  · intro c k v lifetime now h0
    rw [show (0 : Int) = now + lifetime from h0.symm]
    simpa [SetToExpire] using
      GetItem?_SetItem_self c k { Value := v, CreatedAt := now, ExpiredAt := now + lifetime }

theorem C9_witness :
    Item.IsExpired (⟨7, -1000, 0⟩ : Item Int) 999999 = false ∧
    GetItem? (ClearExpired ([(1, ⟨7, -1000, 0⟩)] : Cache Nat Int) 999999) 1 =
      some ⟨7, -1000, 0⟩ := by
  have h := C9_zero_ExpiredAt_never_expires (K := Nat) (⟨7, -1000, 0⟩ : Item Int) rfl
  exact ⟨h.1 999999, h.2.1 [(1, ⟨7, -1000, 0⟩)] 999999 1 (by unfold NodupKeys; decide) rfl⟩

/-- C10: for a key absent from the cache, the comma-ok read yields
`found = false` together with the zero `Item` — zero value of `V`, zero
`CreatedAt`, zero `ExpiredAt` — and `Get` yields the zero value of `V` with
`found = false`: the not-found result is a fixed, well-defined value. -/
theorem C10_not_found_zero [DecidableEq K] [Inhabited V] (c : Cache K V)
    (k : K) (h : GetItem? c k = none) :
    GetItem c k = (zeroItem, false) ∧
    Get c k = ((default : V), false) ∧
    (zeroItem : Item V) =
      { Value := default, CreatedAt := 0, ExpiredAt := 0 } := by
  simp [GetItem, Get, h, zeroItem]

theorem C10_witness :
    GetItem ([(1, ⟨5, 0, 0⟩)] : Cache Nat Nat) 2 = (⟨0, 0, 0⟩, false) ∧
    Get ([(1, ⟨5, 0, 0⟩)] : Cache Nat Nat) 2 = (0, false) :=
  ⟨(C10_not_found_zero ([(1, ⟨5, 0, 0⟩)] : Cache Nat Nat) 2 rfl).1,
   (C10_not_found_zero ([(1, ⟨5, 0, 0⟩)] : Cache Nat Nat) 2 rfl).2.1⟩

end Cubby
